import Mathlib

/-!
Verification of the structural SQL chunker / chunk reassembler
(`src/services/sql_chunker.py`).

Python strings are modelled as `List Char` (Python indexes strings by code
point, so a character list with natural-number indices is the faithful
representation).  Python's `re` patterns used by the chunker are simple
enough that each one is embedded as a hand-rolled total scanning function;
character classes (`\s`, `\w`) and `str.upper()` are modelled at their ASCII
meaning, which covers every SQL keyword the chunker inspects.
-/

namespace SQLChunkerModel

/-- A Python string, as a list of code points. -/
abbrev PyStr := List Char

/-- Python whitespace for `str.strip()` and the regex class `\s`
(ASCII scope): space, tab, newline, carriage return, vertical tab, form feed. -/
def pyIsSpace (c : Char) : Bool :=
  c = ' ' || c = '\t' || c = '\n' || c = '\r' || c = '\x0b' || c = '\x0c'

/-- Regex class `\w` (ASCII scope): letters, digits, underscore. -/
def pyIsWord (c : Char) : Bool :=
  c.isAlpha || c.isDigit || c = '_'

/-- Remove trailing characters satisfying `pyIsSpace`. -/
def pyStripRight (s : PyStr) : PyStr :=
  (s.reverse.dropWhile pyIsSpace).reverse

/-- Python `str.strip()`: drop leading and trailing whitespace. -/
def pyStrip (s : PyStr) : PyStr :=
  pyStripRight (s.dropWhile pyIsSpace)

/-- Python `str.strip('\x60')` as used on table names: drop leading and
trailing backticks. -/
def stripBackticks (s : PyStr) : PyStr :=
  ((s.dropWhile (· = '`')).reverse.dropWhile (· = '`')).reverse

/-- Python `str.upper()` (ASCII scope), one character, as an explicit
letter table. -/
def pyUpperChar (c : Char) : Char :=
  if c = 'a' then 'A' else if c = 'b' then 'B' else if c = 'c' then 'C'
  else if c = 'd' then 'D' else if c = 'e' then 'E' else if c = 'f' then 'F'
  else if c = 'g' then 'G' else if c = 'h' then 'H' else if c = 'i' then 'I'
  else if c = 'j' then 'J' else if c = 'k' then 'K' else if c = 'l' then 'L'
  else if c = 'm' then 'M' else if c = 'n' then 'N' else if c = 'o' then 'O'
  else if c = 'p' then 'P' else if c = 'q' then 'Q' else if c = 'r' then 'R'
  else if c = 's' then 'S' else if c = 't' then 'T' else if c = 'u' then 'U'
  else if c = 'v' then 'V' else if c = 'w' then 'W' else if c = 'x' then 'X'
  else if c = 'y' then 'Y' else if c = 'z' then 'Z' else c

/-- Python `str.upper()` (ASCII scope). -/
def pyUpper (s : PyStr) : PyStr := s.map pyUpperChar

/-- Match a literal keyword case-insensitively at the head of `s`
(the keyword is given in upper case); return the rest on success.
Models a `re.IGNORECASE` literal. -/
def eatKeywordCI : PyStr → PyStr → Option PyStr
  | [], s => some s
  | _ :: _, [] => none
  | k :: ks, c :: cs => if pyUpperChar c = k then eatKeywordCI ks cs else none

/-- Regex `\s+`: require at least one whitespace character, consume the
maximal run (the patterns in the source never follow `\s+` with something
that can match whitespace, so the greedy match never backtracks). -/
def eatWs1 (s : PyStr) : Option PyStr :=
  match s with
  | [] => none
  | c :: cs => if pyIsSpace c then some ((c :: cs).dropWhile pyIsSpace) else none

/-- Python `str.split(sep)` for a one-character separator. -/
def splitChar (sep : Char) : PyStr → List PyStr
  | [] => [[]]
  | c :: cs =>
    if c = sep then [] :: splitChar sep cs
    else
      match splitChar sep cs with
      | s :: rest => (c :: s) :: rest
      | [] => [[c]]

/-- Python `'\n'.join` / generic `sep.join(parts)`. -/
def joinSep (sep : PyStr) : List PyStr → PyStr
  | [] => []
  | [x] => x
  | x :: xs => x ++ sep ++ joinSep sep xs

/-- One pass of `re.sub("q[^q]*q", "qq", s)` for a one-character quote `q`:
every quote-delimited region loses its inner characters; an unpaired final
quote (no closing partner) is left untouched, exactly as `re.sub` leaves
text without a further match.  `pending` holds (reversed) the characters
seen since an opening quote. -/
def blankQuotedRuns (q : Char) : PyStr → PyStr → Bool → PyStr
  | [], pending, inside => if inside then q :: pending.reverse else []
  | c :: cs, pending, inside =>
    if inside then
      if c = q then q :: q :: blankQuotedRuns q cs [] false
      else blankQuotedRuns q cs (c :: pending) true
    else
      if c = q then blankQuotedRuns q cs [] true
      else c :: blankQuotedRuns q cs pending false

/-- `SQLChunker._remove_string_literals`: blank `'...'` runs, then `"..."`
runs in the result. -/
def remove_string_literals (sql : PyStr) : PyStr :=
  blankQuotedRuns '"' (blankQuotedRuns '\'' sql [] false) [] false

/-- `SQLChunker._has_multiple_statements`. -/
def has_multiple_statements (sql : PyStr) : Bool :=
  let clean := remove_string_literals sql
  decide (1 < ((splitChar ';' clean).filter (fun s => !(pyStrip s).isEmpty)).length)

/-- The character loop of `SQLChunker._split_by_semicolon`.  `cur` holds the
current statement reversed; `inString`/`stringChar` track the string-literal
state exactly as the Python loop does (the quote state is updated before the
semicolon test, and quote characters themselves are appended). -/
def sbsGo : PyStr → PyStr → Bool → Option Char → List PyStr
  | [], cur, _, _ =>
    let s := pyStrip cur.reverse
    if s.isEmpty then [] else [s]
  | c :: cs, cur, inString, stringChar =>
    let st :=
      if (c = '\'' || c = '"') && !inString then (true, some c)
      else if some c = stringChar && inString then (false, stringChar)
      else (inString, stringChar)
    if c = ';' && !st.1 then
      let s := pyStrip cur.reverse
      if s.isEmpty then sbsGo cs [] st.1 st.2 else s :: sbsGo cs [] st.1 st.2
    else sbsGo cs (c :: cur) st.1 st.2

/-- `SQLChunker._split_by_semicolon`. -/
def split_by_semicolon (sql : PyStr) : List PyStr :=
  sbsGo sql [] false none

/-- `SQLChunker._detect_statement_type` (`upper` is `sql.upper().strip()`). -/
def detect_statement_type (sql : PyStr) : String :=
  if "WITH".toList.isPrefixOf (pyStrip (pyUpper sql)) then "cte_query"
  else if "INSERT".toList.isPrefixOf (pyStrip (pyUpper sql)) then "insert"
  else if "ALTER VIEW".toList.isPrefixOf (pyStrip (pyUpper sql)) then "alter_view"
  else if "CREATE".toList.isPrefixOf (pyStrip (pyUpper sql)) then "create"
  else if "SELECT".toList.isPrefixOf (pyStrip (pyUpper sql)) then "select"
  else if "USE".toList.isPrefixOf (pyStrip (pyUpper sql)) then "use"
  else "other"

/-- `SQLChunker._is_insert_select`. -/
def is_insert_select (sql : PyStr) : Bool :=
  "INSERT".toList.isPrefixOf (pyStrip (pyUpper sql)) &&
    decide ("SELECT".toList <:+: pyStrip (pyUpper sql))

/-- `SQLChunker._is_alter_view`. -/
def is_alter_view (sql : PyStr) : Bool :=
  "ALTER VIEW".toList.isPrefixOf (pyStrip (pyUpper sql)) ||
    "ALTER\nVIEW".toList.isPrefixOf (pyStrip (pyUpper sql))

/-- `SQLChunker._has_cte`: regex `re.match(r'\s*WITH\s+', sql, re.IGNORECASE)`. -/
def has_cte (sql : PyStr) : Bool :=
  match eatKeywordCI "WITH".toList (sql.dropWhile pyIsSpace) with
  | some (c :: _) => pyIsSpace c
  | _ => false

/-- Group 1 of `re.match(r'\s*WITH\s+(.*)', sql, re.IGNORECASE | re.DOTALL)`:
the text after the leading `WITH` and its trailing whitespace run
(`\s+` is greedy, so the group starts at the first non-space character). -/
def cteAfterWith (sql : PyStr) : Option PyStr :=
  match eatKeywordCI "WITH".toList (sql.dropWhile pyIsSpace) with
  | some (c :: cs) =>
    if pyIsSpace c then some ((c :: cs).dropWhile pyIsSpace) else none
  | _ => none

/-- The loop body of `SQLChunker._find_matching_paren`, scanning the suffix
`rest` whose first character sits at absolute index `i`; `prev` is the
character at index `i - 1` (`none` at index 0), used for the
backslash-escape look-behind. -/
def fmpGo : PyStr → Nat → Option Char → Int → Bool → Option Char → Option Nat
  | [], _, _, _, _, _ => none
  | c :: cs, i, prev, depth, inString, stringChar =>
    if (c = '\'' || c = '"') && !(prev = some '\\') then
      if !inString then fmpGo cs (i + 1) (some c) depth true (some c)
      else if some c = stringChar then fmpGo cs (i + 1) (some c) depth false stringChar
      else fmpGo cs (i + 1) (some c) depth inString stringChar
    else if inString then fmpGo cs (i + 1) (some c) depth inString stringChar
    else if c = '(' then fmpGo cs (i + 1) (some c) (depth + 1) inString stringChar
    else if c = ')' then
      if depth - 1 = 0 then some i
      else fmpGo cs (i + 1) (some c) (depth - 1) inString stringChar
    else fmpGo cs (i + 1) (some c) depth inString stringChar

/-- `SQLChunker._find_matching_paren(sql, start)`; Python's `-1` result is
modelled as `none`. -/
def find_matching_paren (sql : PyStr) (start : Nat) : Option Nat :=
  fmpGo (sql.drop start) start (if start = 0 then none else sql.get? (start - 1))
    0 false none

/-- `re.match(r'\s*(\w+)\s+AS\s*\(', remaining, re.IGNORECASE)` inside
`_parse_cte_and_main`: returns the CTE name (group 1) and `match.end() - 1`,
the index of the opening parenthesis.  The character classes `\w` and `\s`
are disjoint, so the greedy runs need no backtracking. -/
def cteHeadMatch (s : PyStr) : Option (PyStr × Nat) :=
  let ws1 := s.takeWhile pyIsSpace
  let r1 := s.dropWhile pyIsSpace
  let name := r1.takeWhile pyIsWord
  let r2 := r1.dropWhile pyIsWord
  if name.isEmpty then none
  else
    let ws2 := r2.takeWhile pyIsSpace
    let r3 := r2.dropWhile pyIsSpace
    if ws2.isEmpty then none
    else
      match eatKeywordCI "AS".toList r3 with
      | none => none
      | some r4 =>
        let ws3 := r4.takeWhile pyIsSpace
        let r5 := r4.dropWhile pyIsSpace
        match r5 with
        | '(' :: _ =>
          some (name, ws1.length + name.length + ws2.length + 2 + ws3.length)
        | _ => none

/-- One step of the `while True` loop of `SQLChunker._parse_cte_and_main`:
from the current `remaining`, either stop (returning the accumulated blocks
and `remaining.strip()` as the main query) or extract one `name AS (...)`
block and continue.  `none` means the loop `break`s. -/
def parseCteStep (remaining : PyStr) :
    Option ((PyStr × PyStr) × PyStr × Bool) :=
  match cteHeadMatch remaining with
  | none => none
  | some (name, startParen) =>
    match find_matching_paren remaining startParen with
    | none => none
    | some endParen =>
      let definition := (remaining.drop startParen).take (endParen + 1 - startParen)
      let rest := pyStrip (remaining.drop (endParen + 1))
      match rest with
      | ',' :: rest1 => some ((name, definition), pyStrip rest1, true)
      | _ => some ((name, definition), rest, false)

/-- The loop of `_parse_cte_and_main`, with an explicit fuel argument (the
source loop is `while True`; every iteration strictly shortens `remaining`,
so `remaining.length + 1` fuel always suffices — see
`parseCteGo_fuel_irrelevant`). -/
def parseCteGo : Nat → PyStr → List (PyStr × PyStr) × PyStr
  | 0, remaining => ([], pyStrip remaining)
  | fuel + 1, remaining =>
    match parseCteStep remaining with
    | none => ([], pyStrip remaining)
    | some (block, rest, moreComma) =>
      if moreComma then
        let (blocks, main) := parseCteGo fuel rest
        (block :: blocks, main)
      else (block :: [], pyStrip rest)

/-- `SQLChunker._parse_cte_and_main`. -/
def parse_cte_and_main (sql : PyStr) : List (PyStr × PyStr) × PyStr :=
  parseCteGo (sql.length + 1) sql

/-- A `SQLChunk` dataclass instance. -/
structure SQLChunk where
  chunk_type : String
  content : PyStr
  name : Option PyStr := none
  index : Nat := 0
deriving DecidableEq

/-- The `for i, (name, definition) in enumerate(cte_blocks)` loop of
`_chunk_by_cte`, producing one `cte` chunk per block. -/
def cteChunksFrom : Nat → List (PyStr × PyStr) → List SQLChunk
  | _, [] => []
  | i, (name, definition) :: rest =>
    ⟨"cte", definition, some name, i⟩ :: cteChunksFrom (i + 1) rest

/-- `SQLChunker._chunk_by_cte`.

Modelled from the spec: in the source file the statement binding
`cte_blocks` and `main_query` between the `WITH`-stripping match and the
`for` loop is absent (the design notes flag exactly this spot).  Per the
spec, the blocks and main query come from parsing the text after `WITH`
(`_parse_cte_and_main`), and "if the WITH-stripping regex fails to match,
or CTE-block parsing finds zero blocks (parse failure), the fallback is a
single `main` fragment containing the whole original statement". -/
def chunk_by_cte (sql : PyStr) : List SQLChunk :=
  match cteAfterWith sql with
  | none => [⟨"main", sql, none, 0⟩]
  | some afterWith =>
    if (parse_cte_and_main afterWith).1.isEmpty then [⟨"main", sql, none, 0⟩]
    else
      cteChunksFrom 0 (parse_cte_and_main afterWith).1 ++
        (if (parse_cte_and_main afterWith).2.isEmpty then []
         else [⟨"main", (parse_cte_and_main afterWith).2, none,
                (parse_cte_and_main afterWith).1.length⟩])

/-- An optional regex group `(?:...)?`: keep the consumed state on success,
otherwise leave the input unchanged.  (For the groups in this file the
consumed keyword can never also begin the continuation, so committing to a
successful match is equivalent to the regex engine's backtracking.) -/
def tryEat (p : PyStr → Option PyStr) (s : PyStr) : PyStr :=
  (p s).getD s

/-- The shared core `INSERT\s+(?:OVERWRITE\s+)?(?:INTO\s+)?TABLE\s+(\S+)` of
the two INSERT-header regexes (`re.IGNORECASE`): returns the table name
(group 1) and the rest of the input after it. -/
def insertTableCore (sql : PyStr) : Option (PyStr × PyStr) :=
  match eatKeywordCI "INSERT".toList sql with
  | none => none
  | some r1 =>
    match eatWs1 r1 with
    | none => none
    | some r2 =>
      let r3 := tryEat (fun s => (eatKeywordCI "OVERWRITE".toList s).bind eatWs1) r2
      let r4 := tryEat (fun s => (eatKeywordCI "INTO".toList s).bind eatWs1) r3
      match eatKeywordCI "TABLE".toList r4 with
      | none => none
      | some r5 =>
        match eatWs1 r5 with
        | none => none
        | some r6 =>
          let name := r6.takeWhile (fun c => !pyIsSpace c)
          if name.isEmpty then none
          else some (name, r6.dropWhile (fun c => !pyIsSpace c))

/-- `re.match(r'(INSERT\s+(?:OVERWRITE\s+)?(?:INTO\s+)?TABLE\s+\S+)\s+((?:WITH|SELECT).*)',
sql, re.IGNORECASE | re.DOTALL)` in `_chunk_insert_select`: group 1 (the
INSERT header) and group 2 (the body, starting at `WITH`/`SELECT`). -/
def insertSelectMatch (sql : PyStr) : Option (PyStr × PyStr) :=
  match insertTableCore sql with
  | none => none
  | some (_, afterName) =>
    match eatWs1 afterName with
    | none => none
    | some body =>
      if (eatKeywordCI "WITH".toList body).isSome
          || (eatKeywordCI "SELECT".toList body).isSome then
        some (sql.take (sql.length - afterName.length), body)
      else none

/-- The shared core `ALTER\s+VIEW\s+(\S+)\s+AS` of the two ALTER VIEW
regexes (`re.IGNORECASE`): returns the view name (group 1) and the rest
after the `AS`. -/
def alterViewCore (sql : PyStr) : Option (PyStr × PyStr) :=
  match (eatKeywordCI "ALTER".toList sql).bind eatWs1 with
  | none => none
  | some r1 =>
    match (eatKeywordCI "VIEW".toList r1).bind eatWs1 with
    | none => none
    | some r2 =>
      let name := r2.takeWhile (fun c => !pyIsSpace c)
      if name.isEmpty then none
      else
        match eatWs1 (r2.dropWhile (fun c => !pyIsSpace c)) with
        | none => none
        | some r3 =>
          match eatKeywordCI "AS".toList r3 with
          | none => none
          | some r4 => some (name, r4)

/-- `re.match(r'(ALTER\s+VIEW\s+\S+\s+AS)\s+(SELECT.*)', sql,
re.IGNORECASE | re.DOTALL)` in `_chunk_alter_view`. -/
def alterViewMatch (sql : PyStr) : Option (PyStr × PyStr) :=
  match alterViewCore sql with
  | none => none
  | some (_, afterAs) =>
    match eatWs1 afterAs with
    | none => none
    | some body =>
      if (eatKeywordCI "SELECT".toList body).isSome then
        some (sql.take (sql.length - afterAs.length), body)
      else none

/-- The loop of `SQLChunker._remove_parentheses_content`; `depth` is a
Python `int` (it can go negative on unbalanced input). -/
def rpcGo : PyStr → Int → Bool → Option Char → PyStr
  | [], _, _, _ => []
  | c :: cs, depth, inString, stringChar =>
    if (c = '\'' || c = '"') && !inString then
      (if depth = 0 then [c] else []) ++ rpcGo cs depth true (some c)
    else if some c = stringChar && inString then
      (if depth = 0 then [c] else []) ++ rpcGo cs depth false stringChar
    else if !inString then
      if c = '(' then
        (if depth + 1 = 1 then ['(', ')'] else []) ++ rpcGo cs (depth + 1) inString stringChar
      else if c = ')' then rpcGo cs (depth - 1) inString stringChar
      else if depth = 0 then c :: rpcGo cs depth inString stringChar
      else rpcGo cs depth inString stringChar
    else rpcGo cs depth inString stringChar

/-- `SQLChunker._remove_parentheses_content`. -/
def remove_parentheses_content (sql : PyStr) : PyStr :=
  rpcGo sql 0 false none

/-- Does `re.search(r'\bUNION\s+(?:ALL\s+)?', ·, re.IGNORECASE)` match at
this position (word boundary, then `UNION`, then whitespace)? -/
def unionAtHere (s : PyStr) : Bool :=
  match eatKeywordCI "UNION".toList s with
  | some (c :: _) => pyIsSpace c
  | _ => false

/-- Scan for `\bUNION\s+` anywhere; `prev` is the previous character
(`none` at the start of the text), used for the `\b` word boundary. -/
def searchUnion : Option Char → PyStr → Bool
  | _, [] => false
  | prev, c :: cs =>
    ((match prev with
      | none => true
      | some p => !pyIsWord p) && unionAtHere (c :: cs))
      || searchUnion (some c) cs

/-- `SQLChunker._has_union`. -/
def has_union (sql : PyStr) : Bool :=
  searchUnion none (remove_parentheses_content sql)

/-- The loop of `SQLChunker._find_top_level_unions`.  Python advances the
cursor by 10 (resp. 5) after recording a `UNION ALL` (resp. `UNION`) span;
the extra characters are modelled by the `skip` counter, during which only
the position and previous-character state advance. -/
def ftluGo : PyStr → Nat → Nat → Option Char → Int → Bool → Option Char → List (Nat × Nat)
  | [], _, _, _, _, _, _ => []
  | c :: cs, skip + 1, i, _, depth, inString, stringChar =>
    ftluGo cs skip (i + 1) (some c) depth inString stringChar
  | c :: cs, 0, i, prev, depth, inString, stringChar =>
    if (c = '\'' || c = '"') && !(prev = some '\\') then
      if !inString then ftluGo cs 0 (i + 1) (some c) depth true (some c)
      else if some c = stringChar then ftluGo cs 0 (i + 1) (some c) depth false stringChar
      else ftluGo cs 0 (i + 1) (some c) depth inString stringChar
    else if inString then ftluGo cs 0 (i + 1) (some c) depth inString stringChar
    else if c = '(' then ftluGo cs 0 (i + 1) (some c) (depth + 1) inString stringChar
    else if c = ')' then ftluGo cs 0 (i + 1) (some c) (depth - 1) inString stringChar
    else if depth = 0 then
      if "UNION ALL".toList.isPrefixOf (pyUpper (c :: cs)) then
        (i, i + 10) :: ftluGo cs 9 (i + 1) (some c) depth inString stringChar
      else if "UNION".toList.isPrefixOf (pyUpper (c :: cs)) then
        (i, i + 5) :: ftluGo cs 4 (i + 1) (some c) depth inString stringChar
      else ftluGo cs 0 (i + 1) (some c) depth inString stringChar
    else ftluGo cs 0 (i + 1) (some c) depth inString stringChar

/-- `SQLChunker._find_top_level_unions` (the `union_type` component of the
returned triples is never read by the callers, so only the spans are kept). -/
def find_top_level_unions (sql : PyStr) : List (Nat × Nat) :=
  ftluGo sql 0 0 none 0 false none

/-- The splitting loop of `SQLChunker._chunk_by_union`: `prevEnd` is the end
of the previous span, `posIdx` the position in `union_positions` (`i` in the
Python `enumerate`), `count` the number of chunks emitted so far
(`len(chunks)`, used as the chunk index). -/
def cbuGo (sql : PyStr) : List (Nat × Nat) → Nat → Nat → Nat → List SQLChunk
  | [], prevEnd, _, count =>
    if (pyStrip (sql.drop prevEnd)).isEmpty then []
    else [⟨"union_part", pyStrip (sql.drop prevEnd), none, count⟩]
  | (s, e) :: ps, prevEnd, posIdx, count =>
    if (pyStrip ((sql.drop prevEnd).take (s - prevEnd))).isEmpty then
      cbuGo sql ps e (posIdx + 1) count
    else
      ⟨if posIdx = 0 then "union_first" else "union_part",
          pyStrip ((sql.drop prevEnd).take (s - prevEnd)), none, count⟩ ::
        cbuGo sql ps e (posIdx + 1) (count + 1)

/-- `SQLChunker._chunk_by_union`. -/
def chunk_by_union (sql : PyStr) : List SQLChunk :=
  if (find_top_level_unions sql).isEmpty then [⟨"main", sql, none, 0⟩]
  else cbuGo sql (find_top_level_unions sql) 0 0 0

/-- The `for i, stmt in enumerate(statements)` loop of
`SQLChunker._chunk_by_statements`. -/
def cbsGo : Nat → List PyStr → List SQLChunk
  | _, [] => []
  | i, st :: sts =>
    if (pyStrip st).isEmpty then cbsGo (i + 1) sts
    else ⟨detect_statement_type (pyStrip st), pyStrip st, none, i⟩ :: cbsGo (i + 1) sts

/-- `SQLChunker._chunk_by_statements`. -/
def chunk_by_statements (sql : PyStr) : List SQLChunk :=
  cbsGo 0 (split_by_semicolon sql)

/-- The `chunk.index = i + 1` re-indexing loop of `_chunk_insert_select`
(positional, starting at `base`). -/
def reindexFrom : Nat → List SQLChunk → List SQLChunk
  | _, [] => []
  | i, c :: cs => { c with index := i } :: reindexFrom (i + 1) cs

/-- `SQLChunker._chunk_insert_select`. -/
def chunk_insert_select (sql : PyStr) : List SQLChunk :=
  match insertSelectMatch sql with
  | none => [⟨"insert", sql, none, 0⟩]
  | some (insertPart, selectPart) =>
    ⟨"insert_header", insertPart, none, 0⟩ ::
      (if has_cte selectPart then reindexFrom 1 (chunk_by_cte selectPart)
       else if has_union selectPart then reindexFrom 1 (chunk_by_union selectPart)
       else [⟨"select", selectPart, none, 1⟩])

/-- `SQLChunker._chunk_alter_view`. -/
def chunk_alter_view (sql : PyStr) : List SQLChunk :=
  match alterViewMatch sql with
  | none => [⟨"alter_view", sql, none, 0⟩]
  | some (alterPart, selectPart) =>
    [⟨"alter_view_header", alterPart, none, 0⟩, ⟨"select", selectPart, none, 1⟩]

/-- `SQLChunker.analyze_and_chunk`, applied to the constructor argument
(`__init__` stores `sql.strip()` as `self.original_sql`). -/
def analyze_and_chunk (input : PyStr) : List SQLChunk :=
  if has_multiple_statements (pyStrip input) then chunk_by_statements (pyStrip input)
  else if is_insert_select (pyStrip input) then chunk_insert_select (pyStrip input)
  else if is_alter_view (pyStrip input) then chunk_alter_view (pyStrip input)
  else if has_cte (pyStrip input) then chunk_by_cte (pyStrip input)
  else if has_union (pyStrip input) then chunk_by_union (pyStrip input)
  else [⟨"main", pyStrip input, none, 0⟩]

/-- `SQLChunker.should_chunk`, applied to the constructor argument; the two
thresholds are the module-level `MAX_SQL_LENGTH` / `MAX_SQL_LINES`
environment knobs (defaults 8000 and 200). -/
def should_chunk (maxLen maxLines : Nat) (input : PyStr) : Bool :=
  let sql := pyStrip input
  decide (maxLen < sql.length) || decide (maxLines < sql.count '\n')

/-- `ChunkedConverter._convert_insert_header`. -/
def convert_insert_header (insertSql : PyStr) : PyStr :=
  match insertTableCore insertSql with
  | some (tableName, _) =>
    "CREATE OR REPLACE TABLE `".toList ++ stripBackticks tableName ++ "` AS".toList
  | none => insertSql

/-- `ChunkedConverter._convert_alter_view_header`. -/
def convert_alter_view_header (alterSql : PyStr) : PyStr :=
  match alterViewCore alterSql with
  | some (viewName, _) =>
    "CREATE OR REPLACE VIEW `".toList ++ stripBackticks viewName ++ "` AS".toList
  | none => alterSql

/-- One entry of the `converted_parts` list built by
`ChunkedConverter.convert_chunks` (a Python dict with keys
`type`, `name`, `content`, `index`). -/
structure ConvPart where
  ptype : String
  name : Option PyStr
  content : PyStr
  index : Nat
deriving DecidableEq

/-- The loop of `ChunkedConverter.convert_chunks`, instrumented: the first
component is `converted_parts`, the second records every argument passed to
the injected `converter_func` (in call order). -/
def convertChunksAux (f : PyStr → PyStr) : List SQLChunk → List ConvPart × List PyStr
  | [] => ([], [])
  | c :: cs =>
    let rest := convertChunksAux f cs
    if c.chunk_type = "insert_header" then
      (⟨c.chunk_type, c.name, convert_insert_header c.content, c.index⟩ :: rest.1, rest.2)
    else if c.chunk_type = "alter_view_header" then
      (⟨c.chunk_type, c.name, convert_alter_view_header c.content, c.index⟩ :: rest.1, rest.2)
    else if c.chunk_type = "use" then rest
    else
      (⟨c.chunk_type, c.name, f c.content, c.index⟩ :: rest.1, c.content :: rest.2)

/-- The arguments on which `convert_chunks` invokes the injected
`converter_func`, in order. -/
def translateCalls (f : PyStr → PyStr) (chunks : List SQLChunk) : List PyStr :=
  (convertChunksAux f chunks).2

/-- Stable insertion into an index-sorted list (`sorted` with
`key=lambda x: x['index']`). -/
def insertPart (p : ConvPart) : List ConvPart → List ConvPart
  | [] => [p]
  | q :: qs => if p.index ≤ q.index then p :: q :: qs else q :: insertPart p qs

/-- Python's stable `sorted(parts, key=lambda x: x['index'])`. -/
def sortParts (parts : List ConvPart) : List ConvPart :=
  parts.foldr insertPart []

/-- The collection loop of `_merge_parts`: returns
(`result_parts` as accumulated by `insert(0, ...)` — i.e. the header
contents in reverse processing order —, `cte_parts`, `main_parts`).
Each part's content is stripped on entry as in the source. -/
def collectParts : List ConvPart → List PyStr × List (Option PyStr × PyStr) × List PyStr
  | [] => ([], [], [])
  | p :: ps =>
    let rest := collectParts ps
    let content := pyStrip p.content
    if p.ptype = "cte" then (rest.1, (p.name, content) :: rest.2.1, rest.2.2)
    else if p.ptype = "insert_header" || p.ptype = "alter_view_header" then
      (rest.1 ++ [content], rest.2.1, rest.2.2)
    else if p.ptype = "main" || p.ptype = "select" || p.ptype = "cte_query" then
      (rest.1, rest.2.1, content :: rest.2.2)
    else if p.ptype = "union_first" then (rest.1, rest.2.1, content :: rest.2.2)
    else if p.ptype = "union_part" then (rest.1, rest.2.1, content :: rest.2.2)
    else if p.ptype = "statement" then
      (rest.1, rest.2.1, (content ++ ";".toList) :: rest.2.2)
    else (rest.1, rest.2.1, content :: rest.2.2)

/-- The Python `str(None)` rendering used by the f-strings of
`_merge_parts` when a CTE part has no name. -/
def renderName : Option PyStr → PyStr
  | some n => n
  | none => "None".toList

/-- The CTE block strings: `WITH {name} AS {definition}` for the first,
`, {name} AS {definition}` for the rest. -/
def cteStrs : Nat → List (Option PyStr × PyStr) → List PyStr
  | _, [] => []
  | i, (n, d) :: rest =>
    ((if i = 0 then "WITH ".toList else ", ".toList)
        ++ renderName n ++ " AS ".toList ++ d) :: cteStrs (i + 1) rest

/-- The `result_parts` list of `_merge_parts` just before the final join:
collected headers, then the CTE block (if any), then the main block (if
any), the latter joined with `UNION ALL` when any part has a union kind. -/
def mergeResultParts (sorted : List ConvPart) : List PyStr :=
  (collectParts sorted).1 ++
    (if (collectParts sorted).2.1.isEmpty then []
     else [joinSep "\n".toList (cteStrs 0 (collectParts sorted).2.1)]) ++
    (if (collectParts sorted).2.2.isEmpty then []
     else if sorted.any (fun p => "union".toList.isPrefixOf p.ptype.toList) then
       [joinSep "\nUNION ALL\n".toList (collectParts sorted).2.2]
     else [joinSep "\n".toList (collectParts sorted).2.2])

/-- `ChunkedConverter._merge_parts`. -/
def merge_parts (parts : List ConvPart) : PyStr :=
  match parts with
  | [] => []
  | [p] => p.content
  | _ :: _ :: _ => joinSep "\n".toList (mergeResultParts (sortParts parts))

/-- `ChunkedConverter.convert_chunks`. -/
def convert_chunks (f : PyStr → PyStr) (chunks : List SQLChunk) : PyStr :=
  merge_parts (convertChunksAux f chunks).1

/-- `chunk_and_convert`, the module entry point. -/
def chunk_and_convert (maxLen maxLines : Nat) (sql : PyStr)
    (f : PyStr → PyStr) : PyStr × Bool :=
  if should_chunk maxLen maxLines sql then
    if 1 < (analyze_and_chunk sql).length then
      (convert_chunks f (analyze_and_chunk sql), true)
    else (f sql, false)
  else (f sql, false)

/-- The per-chunk action of the translator driver, as one function:
header chunks are rewritten locally, `use` chunks are dropped, every other
chunk has its content passed to the translate callback `f`. -/
def partOf (f : PyStr → PyStr) (c : SQLChunk) : Option ConvPart :=
  if c.chunk_type = "insert_header" then
    some ⟨c.chunk_type, c.name, convert_insert_header c.content, c.index⟩
  else if c.chunk_type = "alter_view_header" then
    some ⟨c.chunk_type, c.name, convert_alter_view_header c.content, c.index⟩
  else if c.chunk_type = "use" then none
  else some ⟨c.chunk_type, c.name, f c.content, c.index⟩

/-- The (stripped) contents the driver emits downstream for a chunk list,
in chunk order: dropped `use` chunks contribute nothing, header chunks
contribute their locally rewritten text, and all other chunks their
translated content. -/
def emittedContents (f : PyStr → PyStr) (chunks : List SQLChunk) : List PyStr :=
  (chunks.filterMap (partOf f)).map (fun p => pyStrip p.content)

/-- A fragment list as the chunker produces it: strictly increasing
indices, and (in list order) at most one header fragment, then `cte`
fragments, then body fragments of non-`cte`, non-header kinds. -/
def chunksWellFormed (chunks : List SQLChunk) : Prop :=
  List.Pairwise (fun a b => a.index < b.index) chunks ∧
  ∃ hdc ctsc bdc : List SQLChunk,
    chunks = hdc ++ ctsc ++ bdc ∧ hdc.length ≤ 1 ∧
    (∀ c ∈ hdc, c.chunk_type = "insert_header" ∨ c.chunk_type = "alter_view_header") ∧
    (∀ c ∈ ctsc, c.chunk_type = "cte") ∧
    (∀ c ∈ bdc, ¬(c.chunk_type = "cte" ∨ c.chunk_type = "insert_header" ∨
      c.chunk_type = "alter_view_header"))

/-- `appearsInOrder xs s` holds when the strings `xs` occur inside `s` as
disjoint substrings, in the given order. -/
def appearsInOrder : List PyStr → PyStr → Prop
  | [], _ => True
  | x :: xs, s => ∃ pre rest, s = pre ++ x ++ rest ∧ appearsInOrder xs rest

/-- How `_merge_parts` renders a non-`cte`, non-header part into the main
block: `statement` parts get a trailing semicolon, everything else is the
stripped content. -/
def bodyRender (p : ConvPart) : PyStr :=
  if p.ptype = "statement" then pyStrip p.content ++ ";".toList
  else pyStrip p.content

/-! ## Helper lemmas -/

theorem pyUpperChar_of_space {c : Char} (h : pyIsSpace c = true) :
    pyUpperChar c = c ∧ pyIsSpace (pyUpperChar c) = true := by
  have h6 := h
  simp only [pyIsSpace, Bool.or_eq_true, decide_eq_true_eq] at h6
  rcases h6 with ((((h6 | h6) | h6) | h6) | h6) | h6 <;> subst h6 <;> exact ⟨rfl, rfl⟩

theorem pyStripRight_cons (x : Char) (xs : PyStr) (h : pyIsSpace x = false) :
    pyStripRight (x :: xs) = x :: pyStripRight xs := by
  unfold pyStripRight
  rw [show (x :: xs).reverse = xs.reverse ++ [x] by simp, List.dropWhile_append]
  by_cases he : (xs.reverse.dropWhile pyIsSpace).isEmpty = true
  · rw [if_pos he]
    rw [List.isEmpty_iff] at he
    simp [List.dropWhile_cons, h, he]
  · rw [if_neg he]
    simp

theorem eatKeywordCI_shape {ks s r : PyStr} (h : eatKeywordCI ks s = some r) :
    pyUpper s = ks ++ pyUpper r := by
  induction ks generalizing s with
  | nil =>
    simp only [eatKeywordCI, Option.some.injEq] at h
    subst h
    rfl
  | cons k ks ih =>
    cases s with
    | nil => simp [eatKeywordCI] at h
    | cons c cs =>
      simp only [eatKeywordCI] at h
      split at h
      · rename_i hc
        have hcs := ih h
        simp [pyUpper] at hcs ⊢
        exact ⟨hc, hcs⟩
      · cases h

theorem isPrefixOf_false_of_head_ne {a b : Char} {as bs : PyStr} (h : ¬ a = b) :
    (a :: as).isPrefixOf (b :: bs) = false := by
  simp [List.isPrefixOf, h]

theorem eatKeywordCI_with_head {s r : PyStr}
    (h : eatKeywordCI "WITH".toList s = some r) :
    ∃ w cs, s = w :: cs ∧ pyUpperChar w = 'W' := by
  cases s with
  | nil => cases h
  | cons c cs =>
    refine ⟨c, cs, rfl, ?_⟩
    simp only [show "WITH".toList = 'W' :: "ITH".toList from rfl, eatKeywordCI] at h
    split at h
    · assumption
    · cases h

theorem pyUpper_dropWhile_of_with {s r : PyStr}
    (h : eatKeywordCI "WITH".toList (s.dropWhile pyIsSpace) = some r) :
    ∃ m, (pyUpper s).dropWhile pyIsSpace = 'W' :: m := by
  induction s with
  | nil => cases h
  | cons c cs ih =>
    by_cases hc : pyIsSpace c = true
    · rw [List.dropWhile_cons, if_pos hc] at h
      obtain ⟨m, hm⟩ := ih h
      refine ⟨m, ?_⟩
      rw [show pyUpper (c :: cs) = pyUpperChar c :: pyUpper cs from rfl,
        List.dropWhile_cons, if_pos (pyUpperChar_of_space hc).2]
      exact hm
    · rw [List.dropWhile_cons, if_neg hc] at h
      obtain ⟨w, ds, heq, hw⟩ := eatKeywordCI_with_head h
      have hwc : w = c := by
        have := heq
        injection this with h1 _
        exact h1.symm
      subst hwc
      refine ⟨pyUpper cs, ?_⟩
      rw [show pyUpper (w :: cs) = pyUpperChar w :: pyUpper cs from rfl, hw,
        List.dropWhile_cons, if_neg (by decide)]

theorem upper_strip_head {s : PyStr} (h : has_cte s = true) :
    ∃ m, pyStrip (pyUpper s) = 'W' :: m := by
  unfold has_cte at h
  rcases heq : eatKeywordCI "WITH".toList (s.dropWhile pyIsSpace) with _ | r
  · rw [heq] at h; cases h
  · obtain ⟨m, hm⟩ := pyUpper_dropWhile_of_with heq
    refine ⟨pyStripRight m, ?_⟩
    unfold pyStrip
    rw [hm]
    exact pyStripRight_cons _ _ (by decide)

theorem has_cte_not_insert {s : PyStr} (h : has_cte s = true) :
    is_insert_select s = false := by
  obtain ⟨m, hm⟩ := upper_strip_head h
  unfold is_insert_select
  rw [hm, show "INSERT".toList = 'I' :: "NSERT".toList from rfl,
    isPrefixOf_false_of_head_ne (by decide), Bool.false_and]

theorem has_cte_not_alter {s : PyStr} (h : has_cte s = true) :
    is_alter_view s = false := by
  obtain ⟨m, hm⟩ := upper_strip_head h
  unfold is_alter_view
  rw [hm, show "ALTER VIEW".toList = 'A' :: "LTER VIEW".toList from rfl,
    show "ALTER\nVIEW".toList = 'A' :: "LTER\nVIEW".toList from rfl,
    isPrefixOf_false_of_head_ne (by decide),
    isPrefixOf_false_of_head_ne (by decide), Bool.or_self]

theorem convertChunksAux_eq (f : PyStr → PyStr) (chunks : List SQLChunk) :
    convertChunksAux f chunks =
      (chunks.filterMap (partOf f),
       (chunks.filter (fun c => !(decide (c.chunk_type = "use")
           || decide (c.chunk_type = "insert_header")
           || decide (c.chunk_type = "alter_view_header")))).map
         (fun c => c.content)) := by
  induction chunks with
  | nil => rfl
  | cons c cs ih =>
    by_cases h1 : c.chunk_type = "insert_header"
    · simp [convertChunksAux, partOf, h1, ih]
    · by_cases h2 : c.chunk_type = "alter_view_header"
      · simp [convertChunksAux, partOf, h1, h2, ih]
      · by_cases h3 : c.chunk_type = "use"
        · simp [convertChunksAux, partOf, h1, h2, h3, ih]
        · simp [convertChunksAux, partOf, h1, h2, h3, ih]

theorem appearsInOrder_nil (s : PyStr) : appearsInOrder [] s := trivial

theorem appearsInOrder_append_right {xs : List PyStr} {s : PyStr}
    (h : appearsInOrder xs s) (t : PyStr) : appearsInOrder xs (s ++ t) := by
  induction xs generalizing s with
  | nil => trivial
  | cons x xs ih =>
    obtain ⟨pre, rest, heq, hrest⟩ := h
    exact ⟨pre, rest ++ t, by rw [heq]; simp, ih hrest⟩

theorem appearsInOrder_append_left (t : PyStr) {xs : List PyStr} {s : PyStr}
    (h : appearsInOrder xs s) : appearsInOrder xs (t ++ s) := by
  cases xs with
  | nil => trivial
  | cons x xs =>
    obtain ⟨pre, rest, heq, hrest⟩ := h
    exact ⟨t ++ pre, rest, by rw [heq]; simp, hrest⟩

theorem appearsInOrder_concat {xs ys : List PyStr} {s t : PyStr}
    (hx : appearsInOrder xs s) (hy : appearsInOrder ys t) :
    appearsInOrder (xs ++ ys) (s ++ t) := by
  induction xs generalizing s with
  | nil => exact appearsInOrder_append_left s hy
  | cons x xs ih =>
    obtain ⟨pre, rest, heq, hrest⟩ := hx
    exact ⟨pre, rest ++ t, by rw [heq]; simp, ih hrest⟩

theorem appearsInOrder_join {xs ys : List PyStr} (sep : PyStr)
    (h : List.Forall₂ (fun x y => ∃ a b, y = a ++ x ++ b) xs ys) :
    appearsInOrder xs (joinSep sep ys) := by
  induction h with
  | nil => trivial
  | cons hxy htail ih =>
    rename_i x y xs' ys'
    obtain ⟨a, b, hab⟩ := hxy
    cases ys' with
    | nil =>
      cases htail
      exact ⟨a, b, hab, trivial⟩
    | cons y2 t2 =>
      refine ⟨a, b ++ sep ++ joinSep sep (y2 :: t2), ?_, ?_⟩
      · show y ++ sep ++ joinSep sep (y2 :: t2) = _
        rw [hab]
        simp
      · rw [show b ++ sep ++ joinSep sep (y2 :: t2) =
          b ++ (sep ++ joinSep sep (y2 :: t2)) by simp]
        exact appearsInOrder_append_left _ (appearsInOrder_append_left _ ih)

theorem pyStripRight_infix (l : PyStr) :
    l = pyStripRight l ++ (l.reverse.takeWhile pyIsSpace).reverse := by
  unfold pyStripRight
  conv_lhs => rw [← List.reverse_reverse l,
    ← List.takeWhile_append_dropWhile pyIsSpace l.reverse]
  rw [List.reverse_append]

theorem pyStrip_infix (s : PyStr) :
    ∃ a b, s = a ++ pyStrip s ++ b := by
  refine ⟨s.takeWhile pyIsSpace,
    ((s.dropWhile pyIsSpace).reverse.takeWhile pyIsSpace).reverse, ?_⟩
  conv_lhs => rw [← List.takeWhile_append_dropWhile pyIsSpace s]
  rw [List.append_assoc]
  congr 1
  exact pyStripRight_infix (s.dropWhile pyIsSpace)

theorem appearsInOrder_strip_single (p : ConvPart) :
    appearsInOrder [pyStrip p.content] p.content := by
  obtain ⟨a, b, hab⟩ := pyStrip_infix p.content
  exact ⟨a, b, hab, trivial⟩

theorem insertPart_of_le {p : ConvPart} {l : List ConvPart}
    (h : ∀ q ∈ l, p.index ≤ q.index) : insertPart p l = p :: l := by
  cases l with
  | nil => rfl
  | cons q qs =>
    unfold insertPart
    rw [if_pos (h q (List.mem_cons_self q qs))]

theorem sortParts_of_sorted {l : List ConvPart}
    (h : List.Pairwise (fun a b => a.index < b.index) l) : sortParts l = l := by
  induction l with
  | nil => rfl
  | cons p ps ih =>
    rw [List.pairwise_cons] at h
    show insertPart p (sortParts ps) = p :: ps
    rw [ih h.2]
    exact insertPart_of_le (fun q hq => Nat.le_of_lt (h.1 q hq))

theorem collectParts_body {bd : List ConvPart}
    (hb : ∀ p ∈ bd, ¬(p.ptype = "cte" ∨ p.ptype = "insert_header" ∨
      p.ptype = "alter_view_header")) :
    collectParts bd = ([], [], bd.map bodyRender) := by
  induction bd with
  | nil => rfl
  | cons p ps ih =>
    have hp := hb p (List.mem_cons_self p ps)
    push_neg at hp
    obtain ⟨hc1, hc2, hc3⟩ := hp
    have ihh := ih (fun q hq => hb q (List.mem_cons_of_mem p hq))
    unfold collectParts
    rw [ihh, if_neg hc1, if_neg (by simp [hc2, hc3])]
    by_cases h4 : p.ptype = "main" ∨ p.ptype = "select" ∨ p.ptype = "cte_query"
    · rw [if_pos (by rcases h4 with h | h | h <;> simp [h])]
      simp [bodyRender, show ¬p.ptype = "statement" by
        rcases h4 with h | h | h <;> simp [h]]
    · have h4n : ¬p.ptype = "main" ∧ ¬p.ptype = "select" ∧ ¬p.ptype = "cte_query" := by
        push_neg at h4
        exact h4
      rw [if_neg (by simp [h4n.1, h4n.2.1, h4n.2.2])]
      by_cases h5 : p.ptype = "union_first"
      · rw [if_pos h5]
        simp [bodyRender, show ¬p.ptype = "statement" by simp [h5]]
      · rw [if_neg h5]
        by_cases h6 : p.ptype = "union_part"
        · rw [if_pos h6]
          simp [bodyRender, show ¬p.ptype = "statement" by simp [h6]]
        · rw [if_neg h6]
          by_cases h7 : p.ptype = "statement"
          · rw [if_pos h7]
            simp [bodyRender, h7]
          · rw [if_neg h7]
            simp [bodyRender, h7]

theorem collectParts_cte {cts bd : List ConvPart}
    (hc : ∀ p ∈ cts, p.ptype = "cte")
    (hb : ∀ p ∈ bd, ¬(p.ptype = "cte" ∨ p.ptype = "insert_header" ∨
      p.ptype = "alter_view_header")) :
    collectParts (cts ++ bd) =
      ([], cts.map (fun p => (p.name, pyStrip p.content)), bd.map bodyRender) := by
  induction cts with
  | nil => simpa using collectParts_body hb
  | cons p ps ih =>
    have hp := hc p (List.mem_cons_self p ps)
    have ihh := ih (fun q hq => hc q (List.mem_cons_of_mem p hq))
    show collectParts (p :: (ps ++ bd)) = _
    unfold collectParts
    rw [ihh, if_pos hp]
    rfl

theorem collectParts_shape {hd cts bd : List ConvPart}
    (hh : ∀ p ∈ hd, p.ptype = "insert_header" ∨ p.ptype = "alter_view_header")
    (hc : ∀ p ∈ cts, p.ptype = "cte")
    (hb : ∀ p ∈ bd, ¬(p.ptype = "cte" ∨ p.ptype = "insert_header" ∨
      p.ptype = "alter_view_header")) :
    collectParts (hd ++ cts ++ bd) =
      ((hd.map (fun p => pyStrip p.content)).reverse,
       cts.map (fun p => (p.name, pyStrip p.content)),
       bd.map bodyRender) := by
  induction hd with
  | nil => simpa using collectParts_cte hc hb
  | cons p ps ih =>
    have hp := hh p (List.mem_cons_self p ps)
    have ihh := ih (fun q hq => hh q (List.mem_cons_of_mem p hq))
    show collectParts (p :: (ps ++ cts ++ bd)) = _
    unfold collectParts
    rw [ihh, if_neg (by rcases hp with h | h <;> simp [h]),
      if_pos (by rcases hp with h | h <;> simp [h])]
    simp

theorem appearsInOrder_self (x : PyStr) : appearsInOrder [x] x :=
  ⟨[], [], by simp, trivial⟩

theorem appearsInOrder_sep_concat {xs ys : List PyStr} {s t : PyStr} (sep : PyStr)
    (hx : appearsInOrder xs s) (hy : appearsInOrder ys t) :
    appearsInOrder (xs ++ ys) (s ++ sep ++ t) := by
  have h := appearsInOrder_concat hx (appearsInOrder_append_left sep hy)
  simpa [List.append_assoc] using h

theorem cteStrs_forall2 (i : Nat) (cs : List (Option PyStr × PyStr)) :
    List.Forall₂ (fun x y => ∃ a b, y = a ++ x ++ b)
      (cs.map (fun c => c.2)) (cteStrs i cs) := by
  induction cs generalizing i with
  | nil => exact List.Forall₂.nil
  | cons c t ih =>
    rcases c with ⟨n, d⟩
    refine List.Forall₂.cons
      ⟨(if i = 0 then "WITH ".toList else ", ".toList) ++ renderName n ++ " AS ".toList,
        [], ?_⟩ (ih (i + 1))
    show (if i = 0 then "WITH ".toList else ", ".toList) ++ renderName n
        ++ " AS ".toList ++ d = _
    simp

theorem bodyRender_forall2 (bd : List ConvPart) :
    List.Forall₂ (fun x y => ∃ a b, y = a ++ x ++ b)
      (bd.map (fun p => pyStrip p.content)) (bd.map bodyRender) := by
  induction bd with
  | nil => exact List.Forall₂.nil
  | cons p t ih =>
    refine List.Forall₂.cons ?_ ih
    by_cases h : p.ptype = "statement"
    · exact ⟨[], ";".toList, by simp [bodyRender, h]⟩
    · exact ⟨[], [], by simp [bodyRender, h]⟩

theorem merge_parts_eq_of_two {parts : List ConvPart} (h : 1 < parts.length) :
    merge_parts parts = joinSep "\n".toList (mergeResultParts (sortParts parts)) := by
  cases parts with
  | nil => simp at h
  | cons p t =>
    cases t with
    | nil => simp at h
    | cons q r => rfl

theorem merge_parts_appears (hd cts bd : List ConvPart)
    (hlen : hd.length ≤ 1)
    (hh : ∀ p ∈ hd, p.ptype = "insert_header" ∨ p.ptype = "alter_view_header")
    (hc : ∀ p ∈ cts, p.ptype = "cte")
    (hb : ∀ p ∈ bd, ¬(p.ptype = "cte" ∨ p.ptype = "insert_header" ∨
      p.ptype = "alter_view_header"))
    (hsort : List.Pairwise (fun a b => a.index < b.index) (hd ++ cts ++ bd)) :
    appearsInOrder ((hd ++ cts ++ bd).map (fun p => pyStrip p.content))
      (merge_parts (hd ++ cts ++ bd)) := by
  by_cases hone : 1 < (hd ++ cts ++ bd).length
  case neg =>
    rcases hL : hd ++ cts ++ bd with _ | ⟨p, pt⟩
    · exact trivial
    · have hpt : pt = [] := by
        cases pt with
        | nil => rfl
        | cons a b =>
          exfalso
          have hlen2 := congrArg List.length hL
          simp at hlen2 hone
          omega
      subst hpt
      exact appearsInOrder_strip_single p
  case pos =>
    rw [merge_parts_eq_of_two hone, sortParts_of_sorted hsort]
    unfold mergeResultParts
    rw [collectParts_shape hh hc hb]
    have hcte : appearsInOrder (cts.map (fun p => pyStrip p.content))
        (joinSep "\n".toList (cteStrs 0 (cts.map (fun p => (p.name, pyStrip p.content))))) := by
      have h2 := appearsInOrder_join "\n".toList
        (cteStrs_forall2 0 (cts.map (fun p => (p.name, pyStrip p.content))))
      simpa [List.map_map, Function.comp] using h2
    have hbodySep : ∀ sp : PyStr, appearsInOrder (bd.map (fun p => pyStrip p.content))
        (joinSep sp (bd.map bodyRender)) :=
      fun sp => appearsInOrder_join sp (bodyRender_forall2 bd)
    rcases hd with _ | ⟨h1, hd2⟩
    · simp only [List.map_nil, List.reverse_nil, List.nil_append, List.map_append]
      cases cts with
      | nil =>
        cases bd with
        | nil => exact trivial
        | cons b bt =>
          simp only [List.map_nil, List.isEmpty_nil, List.nil_append, List.map_cons,
            List.isEmpty_cons, if_true, if_false, Bool.false_eq_true]
          split
          · simpa [joinSep] using hbodySep "\nUNION ALL\n".toList
          · simpa [joinSep] using hbodySep "\n".toList
      | cons c ct =>
        cases bd with
        | nil =>
          simp only [List.map_cons, List.isEmpty_cons, List.map_nil, List.isEmpty_nil,
            if_true, Bool.false_eq_true, if_false, List.append_nil]
          simpa [joinSep] using hcte
        | cons b bt =>
          simp only [List.map_cons, List.isEmpty_cons, Bool.false_eq_true, if_false]
          split
          · have h2 := appearsInOrder_sep_concat "\n".toList hcte
              (hbodySep "\nUNION ALL\n".toList)
            simpa [joinSep] using h2
          · have h2 := appearsInOrder_sep_concat "\n".toList hcte
              (hbodySep "\n".toList)
            simpa [joinSep] using h2
    · rcases hd2 with _ | ⟨hx, ht⟩
      · simp only [List.map_cons, List.map_nil, List.reverse_cons, List.reverse_nil,
          List.nil_append, List.map_append, List.cons_append]
        have hhead : appearsInOrder [pyStrip h1.content] (pyStrip h1.content) :=
          appearsInOrder_self _
        cases cts with
        | nil =>
          cases bd with
          | nil =>
            simp only [List.map_nil, List.isEmpty_nil, if_true, List.append_nil]
            simpa [joinSep] using hhead
          | cons b bt =>
            simp only [List.map_nil, List.isEmpty_nil, List.nil_append, List.map_cons,
              List.isEmpty_cons, if_true, Bool.false_eq_true, if_false]
            split
            · have h2 := appearsInOrder_sep_concat "\n".toList hhead
                (hbodySep "\nUNION ALL\n".toList)
              simpa [joinSep] using h2
            · have h2 := appearsInOrder_sep_concat "\n".toList hhead
                (hbodySep "\n".toList)
              simpa [joinSep] using h2
        | cons c ct =>
          cases bd with
          | nil =>
            simp only [List.map_cons, List.isEmpty_cons, List.map_nil, List.isEmpty_nil,
              if_true, Bool.false_eq_true, if_false, List.append_nil]
            have h2 := appearsInOrder_sep_concat "\n".toList hhead hcte
            simpa [joinSep] using h2
          | cons b bt =>
            simp only [List.map_cons, List.isEmpty_cons, Bool.false_eq_true, if_false]
            split
            · have hin := appearsInOrder_sep_concat "\n".toList hcte
                (hbodySep "\nUNION ALL\n".toList)
              have h2 := appearsInOrder_sep_concat "\n".toList hhead hin
              simpa [joinSep, List.append_assoc] using h2
            · have hin := appearsInOrder_sep_concat "\n".toList hcte
                (hbodySep "\n".toList)
              have h2 := appearsInOrder_sep_concat "\n".toList hhead hin
              simpa [joinSep, List.append_assoc] using h2
      · simp at hlen

theorem partOf_some_fields {f : PyStr → PyStr} {c : SQLChunk} {p : ConvPart}
    (h : partOf f c = some p) : p.ptype = c.chunk_type ∧ p.index = c.index := by
  unfold partOf at h
  split_ifs at h <;> cases h <;> exact ⟨rfl, rfl⟩

theorem filterMap_partOf_index_sublist (f : PyStr → PyStr) (chunks : List SQLChunk) :
    ((chunks.filterMap (partOf f)).map (fun p => p.index)).Sublist
      (chunks.map (fun c => c.index)) := by
  induction chunks with
  | nil => exact List.Sublist.refl _
  | cons c cs ih =>
    cases hp : partOf f c with
    | none =>
      rw [List.filterMap_cons, hp, List.map_cons]
      exact ih.cons _
    | some p =>
      rw [List.filterMap_cons, hp, List.map_cons, List.map_cons,
        (partOf_some_fields hp).2]
      exact ih.cons₂ _

theorem parts_pairwise_of_chunks {f : PyStr → PyStr} {chunks : List SQLChunk}
    (h : List.Pairwise (fun a b => a.index < b.index) chunks) :
    List.Pairwise (fun a b => a.index < b.index) (chunks.filterMap (partOf f)) := by
  have h1 : List.Pairwise (fun a b : Nat => a < b) (chunks.map (fun c => c.index)) :=
    (List.pairwise_map).mpr h
  have h2 := List.Pairwise.sublist (filterMap_partOf_index_sublist f chunks) h1
  exact (List.pairwise_map).mp h2

theorem wellFormed_appears {f : PyStr → PyStr} {chunks : List SQLChunk}
    (h : chunksWellFormed chunks) :
    appearsInOrder (emittedContents f chunks) (convert_chunks f chunks) := by
  obtain ⟨hpair, hdc, ctsc, bdc, hdecomp, hlen, hhd, hcts, hbd⟩ := h
  have hparts : List.Pairwise (fun a b : ConvPart => a.index < b.index)
      (chunks.filterMap (partOf f)) := parts_pairwise_of_chunks hpair
  have hconv : convert_chunks f chunks = merge_parts (chunks.filterMap (partOf f)) := by
    unfold convert_chunks
    rw [convertChunksAux_eq]
  rw [hconv, show emittedContents f chunks =
    (chunks.filterMap (partOf f)).map (fun p => pyStrip p.content) from rfl]
  subst hdecomp
  rw [List.filterMap_append, List.filterMap_append] at hparts ⊢
  apply merge_parts_appears
  · calc (hdc.filterMap (partOf f)).length ≤ hdc.length := List.length_filterMap_le _ _
      _ ≤ 1 := hlen
  · intro p hp
    obtain ⟨c, hc, hpc⟩ := List.mem_filterMap.mp hp
    rw [(partOf_some_fields hpc).1]
    exact hhd c hc
  · intro p hp
    obtain ⟨c, hc, hpc⟩ := List.mem_filterMap.mp hp
    rw [(partOf_some_fields hpc).1]
    exact hcts c hc
  · intro p hp
    obtain ⟨c, hc, hpc⟩ := List.mem_filterMap.mp hp
    rw [(partOf_some_fields hpc).1]
    exact hbd c hc
  · exact hparts

theorem detect_not_special (s : PyStr) :
    ¬(detect_statement_type s = "cte" ∨ detect_statement_type s = "insert_header" ∨
      detect_statement_type s = "alter_view_header") := by
  unfold detect_statement_type
  split_ifs <;> decide

theorem cbsGo_spec (sts : List PyStr) : ∀ i : Nat,
    List.Pairwise (fun a b => a.index < b.index) (cbsGo i sts) ∧
    ∀ c ∈ cbsGo i sts, i ≤ c.index ∧
      ¬(c.chunk_type = "cte" ∨ c.chunk_type = "insert_header" ∨
        c.chunk_type = "alter_view_header") := by
  induction sts with
  | nil => exact fun i => ⟨List.Pairwise.nil, by simp [cbsGo]⟩
  | cons st t ih =>
    intro i
    obtain ⟨ihp, ihm⟩ := ih (i + 1)
    unfold cbsGo
    by_cases he : (pyStrip st).isEmpty = true
    · rw [if_pos he]
      exact ⟨ihp, fun c hc =>
        ⟨Nat.le_trans (Nat.le_succ i) (ihm c hc).1, (ihm c hc).2⟩⟩
    · rw [if_neg he]
      constructor
      · exact List.pairwise_cons.mpr
          ⟨fun b hb => Nat.lt_of_lt_of_le (Nat.lt_succ_self i) (ihm b hb).1, ihp⟩
      · intro c hc
        rcases List.mem_cons.mp hc with rfl | hc
        · exact ⟨Nat.le_refl i, detect_not_special _⟩
        · exact ⟨Nat.le_trans (Nat.le_succ i) (ihm c hc).1, (ihm c hc).2⟩

theorem bodyOnly_wellFormed {chunks : List SQLChunk}
    (hp : List.Pairwise (fun a b => a.index < b.index) chunks)
    (hb : ∀ c ∈ chunks, ¬(c.chunk_type = "cte" ∨ c.chunk_type = "insert_header" ∨
      c.chunk_type = "alter_view_header")) : chunksWellFormed chunks :=
  ⟨hp, [], [], chunks, by simp, by simp, by simp, by simp, hb⟩

theorem chunk_by_statements_wellFormed (sql : PyStr) :
    chunksWellFormed (chunk_by_statements sql) := by
  obtain ⟨hp, hm⟩ := cbsGo_spec (split_by_semicolon sql) 0
  exact bodyOnly_wellFormed hp (fun c hc => (hm c hc).2)

theorem cteChunksFrom_spec (bs : List (PyStr × PyStr)) : ∀ i : Nat,
    List.Pairwise (fun a b => a.index < b.index) (cteChunksFrom i bs) ∧
    ∀ c ∈ cteChunksFrom i bs,
      c.chunk_type = "cte" ∧ i ≤ c.index ∧ c.index < i + bs.length := by
  induction bs with
  | nil => exact fun i => ⟨List.Pairwise.nil, by simp [cteChunksFrom]⟩
  | cons b t ih =>
    intro i
    obtain ⟨ihp, ihm⟩ := ih (i + 1)
    rcases b with ⟨n, d⟩
    constructor
    · exact List.pairwise_cons.mpr
        ⟨fun c hc => Nat.lt_of_lt_of_le (Nat.lt_succ_self i) (ihm c hc).2.1, ihp⟩
    · intro c hc
      rcases List.mem_cons.mp hc with rfl | hc
      · exact ⟨rfl, Nat.le_refl _, by simp⟩
      · obtain ⟨ht, hi, hlt⟩ := ihm c hc
        refine ⟨ht, Nat.le_trans (Nat.le_succ i) hi, ?_⟩
        simp only [List.length_cons]
        omega

theorem chunk_by_cte_parts (sql : PyStr) :
    ∃ cts bdc, chunk_by_cte sql = cts ++ bdc ∧
      (∀ c ∈ cts, c.chunk_type = "cte") ∧
      (∀ c ∈ bdc, c.chunk_type = "main") ∧
      List.Pairwise (fun a b => a.index < b.index) (cts ++ bdc) := by
  unfold chunk_by_cte
  split
  · exact ⟨[], [⟨"main", sql, none, 0⟩], rfl, by simp, by simp, by simp⟩
  · rename_i a ha
    by_cases hz : (parse_cte_and_main a).1.isEmpty = true
    · rw [if_pos hz]
      exact ⟨[], [⟨"main", sql, none, 0⟩], rfl, by simp, by simp, by simp⟩
    · rw [if_neg hz]
      obtain ⟨hp0, hm0⟩ := cteChunksFrom_spec (parse_cte_and_main a).1 0
      refine ⟨cteChunksFrom 0 (parse_cte_and_main a).1, _, rfl,
        fun c hc => (hm0 c hc).1, ?_, ?_⟩
      · intro c hc
        by_cases hz2 : (parse_cte_and_main a).2.isEmpty = true
        · rw [if_pos hz2] at hc
          simp at hc
        · rw [if_neg hz2] at hc
          rw [List.mem_singleton] at hc
          subst hc
          rfl
      · rw [List.pairwise_append]
        refine ⟨hp0, ?_, ?_⟩
        · by_cases hz2 : (parse_cte_and_main a).2.isEmpty = true
          · rw [if_pos hz2]
            exact List.Pairwise.nil
          · rw [if_neg hz2]
            simp
        · intro x hx y hy
          by_cases hz2 : (parse_cte_and_main a).2.isEmpty = true
          · rw [if_pos hz2] at hy
            simp at hy
          · rw [if_neg hz2] at hy
            rw [List.mem_singleton] at hy
            subst hy
            have := (hm0 x hx).2.2
            simpa using this

theorem chunk_by_cte_wellFormed (sql : PyStr) :
    chunksWellFormed (chunk_by_cte sql) := by
  obtain ⟨cts, bdc, hdec, hct, hbt, hp⟩ := chunk_by_cte_parts sql
  rw [hdec]
  exact ⟨hp, [], cts, bdc, by simp, by simp, by simp, hct,
    fun c hc => by rw [hbt c hc]; decide⟩

theorem cbuGo_spec (sql : PyStr) (ps : List (Nat × Nat)) :
    ∀ prevEnd posIdx count : Nat,
      List.Pairwise (fun a b => a.index < b.index) (cbuGo sql ps prevEnd posIdx count) ∧
      ∀ c ∈ cbuGo sql ps prevEnd posIdx count, count ≤ c.index ∧
        (c.chunk_type = "union_first" ∨ c.chunk_type = "union_part") := by
  induction ps with
  | nil =>
    intro pe pi cnt
    unfold cbuGo
    by_cases he : (pyStrip (sql.drop pe)).isEmpty = true
    · rw [if_pos he]
      exact ⟨List.Pairwise.nil, by simp⟩
    · rw [if_neg he]
      constructor
      · simp
      · intro c hc
        rw [List.mem_singleton] at hc
        subst hc
        exact ⟨Nat.le_refl _, Or.inr rfl⟩
  | cons p t ih =>
    intro pe pi cnt
    rcases p with ⟨s, e⟩
    unfold cbuGo
    by_cases he : (pyStrip ((sql.drop pe).take (s - pe))).isEmpty = true
    · rw [if_pos he]
      obtain ⟨ihp, ihm⟩ := ih e (pi + 1) cnt
      exact ⟨ihp, ihm⟩
    · rw [if_neg he]
      obtain ⟨ihp, ihm⟩ := ih e (pi + 1) (cnt + 1)
      constructor
      · exact List.pairwise_cons.mpr
          ⟨fun b hb => Nat.lt_of_lt_of_le (Nat.lt_succ_self cnt) (ihm b hb).1, ihp⟩
      · intro c hc
        rcases List.mem_cons.mp hc with rfl | hc
        · refine ⟨Nat.le_refl _, ?_⟩
          by_cases hp0 : pi = 0
          · rw [if_pos hp0]
            exact Or.inl rfl
          · rw [if_neg hp0]
            exact Or.inr rfl
        · exact ⟨Nat.le_trans (Nat.le_succ cnt) (ihm c hc).1, (ihm c hc).2⟩

theorem chunk_by_union_spec (sql : PyStr) :
    List.Pairwise (fun a b => a.index < b.index) (chunk_by_union sql) ∧
    ∀ c ∈ chunk_by_union sql,
      c.chunk_type = "main" ∨ c.chunk_type = "union_first" ∨
        c.chunk_type = "union_part" := by
  unfold chunk_by_union
  by_cases he : (find_top_level_unions sql).isEmpty = true
  · rw [if_pos he]
    constructor
    · simp
    · intro c hc
      rw [List.mem_singleton] at hc
      subst hc
      exact Or.inl rfl
  · rw [if_neg he]
    obtain ⟨hp, hm⟩ := cbuGo_spec sql (find_top_level_unions sql) 0 0 0
    exact ⟨hp, fun c hc => Or.inr (hm c hc).2⟩

theorem chunk_by_union_wellFormed (sql : PyStr) :
    chunksWellFormed (chunk_by_union sql) := by
  obtain ⟨hp, hm⟩ := chunk_by_union_spec sql
  refine bodyOnly_wellFormed hp (fun c hc => ?_)
  rcases hm c hc with h | h | h <;> rw [h] <;> decide

theorem reindexFrom_append (xs ys : List SQLChunk) : ∀ i : Nat,
    reindexFrom i (xs ++ ys) = reindexFrom i xs ++ reindexFrom (i + xs.length) ys := by
  induction xs with
  | nil => intro i; simp [reindexFrom]
  | cons x t ih =>
    intro i
    show _ :: reindexFrom (i + 1) (t ++ ys) = _
    rw [ih (i + 1), show i + 1 + t.length = i + (t.length + 1) from by omega]
    rfl

theorem reindexFrom_spec (l : List SQLChunk) : ∀ i : Nat,
    List.Pairwise (fun a b => a.index < b.index) (reindexFrom i l) ∧
    (∀ c ∈ reindexFrom i l, i ≤ c.index ∧ c.index < i + l.length) ∧
    (reindexFrom i l).map (fun c => c.chunk_type) = l.map (fun c => c.chunk_type) := by
  induction l with
  | nil => exact fun i => ⟨List.Pairwise.nil, by simp [reindexFrom], by simp [reindexFrom]⟩
  | cons x t ih =>
    intro i
    obtain ⟨ihp, ihb, iht⟩ := ih (i + 1)
    refine ⟨List.pairwise_cons.mpr
      ⟨fun b hb => Nat.lt_of_lt_of_le (Nat.lt_succ_self i) (ihb b hb).1, ihp⟩, ?_, ?_⟩
    · intro c hc
      rcases List.mem_cons.mp hc with rfl | hc
      · exact ⟨Nat.le_refl _, by simp⟩
      · obtain ⟨h1, h2⟩ := ihb c hc
        refine ⟨Nat.le_trans (Nat.le_succ i) h1, ?_⟩
        simp only [List.length_cons]
        omega
    · show x.chunk_type :: _ = _
      rw [iht]
      rfl

theorem types_mem_transfer {l1 l2 : List SQLChunk}
    (h : l1.map (fun c => c.chunk_type) = l2.map (fun c => c.chunk_type))
    {c : SQLChunk} (hc : c ∈ l1) : ∃ c0 ∈ l2, c.chunk_type = c0.chunk_type := by
  have hmem : c.chunk_type ∈ l2.map (fun c => c.chunk_type) := by
    rw [← h]
    exact List.mem_map_of_mem _ hc
  obtain ⟨c0, hc0, he⟩ := List.mem_map.mp hmem
  exact ⟨c0, hc0, he.symm⟩

theorem not_special_of_type (t : String) {c : SQLChunk} (ht : c.chunk_type = t)
    (h1 : ¬t = "cte") (h2 : ¬t = "insert_header") (h3 : ¬t = "alter_view_header") :
    ¬(c.chunk_type = "cte" ∨ c.chunk_type = "insert_header" ∨
      c.chunk_type = "alter_view_header") := by
  rw [ht]
  simp [h1, h2, h3]

theorem main_singleton_wellFormed (sql : PyStr) :
    chunksWellFormed [⟨"main", sql, none, 0⟩] :=
  bodyOnly_wellFormed (by simp)
    (by intro c hc; rw [List.mem_singleton] at hc; subst hc
        exact not_special_of_type "main" rfl (by decide) (by decide) (by decide))

theorem chunk_insert_select_wellFormed (sql : PyStr) :
    chunksWellFormed (chunk_insert_select sql) := by
  unfold chunk_insert_select
  split
  · exact bodyOnly_wellFormed (by simp)
      (by intro c hc; rw [List.mem_singleton] at hc; subst hc
          exact not_special_of_type "insert" rfl (by decide) (by decide) (by decide))
  · rename_i ins sel hm
    by_cases hcte : has_cte sel = true
    · rw [if_pos hcte]
      obtain ⟨cts0, bd0, hdec, hct, hbt, hp0⟩ := chunk_by_cte_parts sel
      rw [hdec, reindexFrom_append]
      obtain ⟨hpc, hbc, htc⟩ := reindexFrom_spec cts0 1
      obtain ⟨hpb, hbb, htb⟩ := reindexFrom_spec bd0 (1 + cts0.length)
      refine ⟨?_, [⟨"insert_header", ins, none, 0⟩], reindexFrom 1 cts0,
        reindexFrom (1 + cts0.length) bd0, by simp, by simp, by simp, ?_, ?_⟩
      · refine List.pairwise_cons.mpr ⟨?_, ?_⟩
        · intro b hb
          rcases List.mem_append.mp hb with hb | hb
          · exact Nat.lt_of_lt_of_le Nat.zero_lt_one (hbc b hb).1
          · exact Nat.lt_of_lt_of_le Nat.zero_lt_one
              (Nat.le_trans (by omega) (hbb b hb).1)
        · rw [List.pairwise_append]
          exact ⟨hpc, hpb,
            fun x hx y hy => Nat.lt_of_lt_of_le (hbc x hx).2 (hbb y hy).1⟩
      · intro c hc
        obtain ⟨c0, hc0, he⟩ := types_mem_transfer htc hc
        rw [he]
        exact hct c0 hc0
      · intro c hc
        obtain ⟨c0, hc0, he⟩ := types_mem_transfer htb hc
        rw [he, hbt c0 hc0]
        decide
    · by_cases hu : has_union sel = true
      · rw [if_neg hcte, if_pos hu]
        obtain ⟨hpu, hmu⟩ := chunk_by_union_spec sel
        obtain ⟨hpr, hbr, htr⟩ := reindexFrom_spec (chunk_by_union sel) 1
        refine ⟨List.pairwise_cons.mpr
            ⟨fun b hb => Nat.lt_of_lt_of_le Nat.zero_lt_one (hbr b hb).1, hpr⟩,
          [⟨"insert_header", ins, none, 0⟩], [], reindexFrom 1 (chunk_by_union sel),
          by simp, by simp, by simp, by simp, ?_⟩
        intro c hc
        obtain ⟨c0, hc0, he⟩ := types_mem_transfer htr hc
        rcases hmu c0 hc0 with h | h | h <;> rw [he, h] <;> decide
      · rw [if_neg hcte, if_neg hu]
        refine ⟨?_, [⟨"insert_header", ins, none, 0⟩], [],
          [⟨"select", sel, none, 1⟩], by simp, by simp, by simp, by simp, ?_⟩
        · simp [List.pairwise_cons]
        · intro c hc
          rw [List.mem_singleton] at hc
          subst hc
          exact not_special_of_type "select" rfl (by decide) (by decide) (by decide)

theorem chunk_alter_view_wellFormed (sql : PyStr) :
    chunksWellFormed (chunk_alter_view sql) := by
  unfold chunk_alter_view
  split
  · exact bodyOnly_wellFormed (by simp)
      (by intro c hc; rw [List.mem_singleton] at hc; subst hc
          exact not_special_of_type "alter_view" rfl (by decide) (by decide) (by decide))
  · rename_i alterPart selectPart hm
    refine ⟨by simp [List.pairwise_cons],
      [⟨"alter_view_header", alterPart, none, 0⟩], [],
      [⟨"select", selectPart, none, 1⟩], by simp, by simp, by simp, by simp, ?_⟩
    intro c hc
    rw [List.mem_singleton] at hc
    subst hc
    exact not_special_of_type "select" rfl (by decide) (by decide) (by decide)

/-! ## Theorems -/

/-- **C1.** For every input whose (stripped) statement begins a `WITH`
clause (`_has_cte`) and is not routed to the multi-statement splitter, if
CTE parsing fails — the `WITH`-stripping regex does not match, or zero CTE
blocks are parsed — then `analyze_and_chunk` returns exactly one fragment
of kind `main` whose content is the whole (stripped) original statement:
no data is lost and nothing is raised. -/
theorem cte_parse_failure_fallback (input : PyStr)
    (hm : has_multiple_statements (pyStrip input) = false)
    (hc : has_cte (pyStrip input) = true)
    (hfail : cteAfterWith (pyStrip input) = none ∨
      ∀ a, cteAfterWith (pyStrip input) = some a → (parse_cte_and_main a).1 = []) :
    analyze_and_chunk input = [⟨"main", pyStrip input, none, 0⟩] := by
  have hstep : analyze_and_chunk input = chunk_by_cte (pyStrip input) := by
    unfold analyze_and_chunk
    rw [hm, has_cte_not_insert hc, has_cte_not_alter hc, hc]
    simp
  rw [hstep]
  unfold chunk_by_cte
  rcases hca : cteAfterWith (pyStrip input) with _ | a
  · rfl
  · rcases hfail with hnone | hzero
    · rw [hca] at hnone; cases hnone
    · have hz := hzero a hca
      simp [hz]

/-- Witness for `cte_parse_failure_fallback`: `WITH foo bar` has a `WITH`
clause but no parsable `name AS (...)` block; the chunker returns the whole
statement as one `main` fragment. -/
theorem cte_parse_failure_fallback_witness :
    analyze_and_chunk "WITH foo bar".toList =
      [⟨"main", pyStrip "WITH foo bar".toList, none, 0⟩] :=
  cte_parse_failure_fallback "WITH foo bar".toList (by decide) (by decide)
    (Or.inr (fun a ha => by
      have he : cteAfterWith (pyStrip "WITH foo bar".toList) = some "foo bar".toList := by
        decide
      rw [he, Option.some.injEq] at ha
      subst ha
      decide))

/-- **C2.** Chunking `WITH a AS (SELECT 1), b AS (SELECT 2) SELECT * FROM a, b`
yields exactly 3 fragments — `cte` "a", `cte` "b" and `main` — and
reassembling them with the identity translate function reconstructs a
statement with the same CTE names, the same parenthesized bodies and the
same main query as the input. -/
theorem cte_round_trip :
    analyze_and_chunk "WITH a AS (SELECT 1), b AS (SELECT 2) SELECT * FROM a, b".toList =
      [⟨"cte", "(SELECT 1)".toList, some "a".toList, 0⟩,
       ⟨"cte", "(SELECT 2)".toList, some "b".toList, 1⟩,
       ⟨"main", "SELECT * FROM a, b".toList, none, 2⟩] ∧
    convert_chunks id
        (analyze_and_chunk "WITH a AS (SELECT 1), b AS (SELECT 2) SELECT * FROM a, b".toList) =
      "WITH a AS (SELECT 1)\n, b AS (SELECT 2)\nSELECT * FROM a, b".toList := by
  constructor <;> decide

/-- **C3 counterexample.** Chunking `SELECT 1; SELECT 2;` does *not* yield
`statement`-kind fragments, and reassembly does *not* put a semicolon after
each statement: `_detect_statement_type` classifies both statements as
`select`, and the `select` merge rule joins with a bare newline. -/
theorem multi_statement_semicolons_cex :
    ¬ ((analyze_and_chunk "SELECT 1; SELECT 2;".toList).map (fun c => c.chunk_type) =
        ["statement", "statement"]) ∧
    ¬ (convert_chunks id (analyze_and_chunk "SELECT 1; SELECT 2;".toList) =
        "SELECT 1;\nSELECT 2;".toList) := by
  constructor <;> decide

/-- **C3 (amended).** Chunking `SELECT 1; SELECT 2;` yields exactly 2
fragments whose kind is `select` (the per-statement detected kind — the
splitter never emits kind `statement`), and reassembling them with the
identity translate function joins the two statements with a newline and no
trailing semicolons. -/
theorem multi_statement_split :
    analyze_and_chunk "SELECT 1; SELECT 2;".toList =
      [⟨"select", "SELECT 1".toList, none, 0⟩,
       ⟨"select", "SELECT 2".toList, none, 1⟩] ∧
    convert_chunks id (analyze_and_chunk "SELECT 1; SELECT 2;".toList) =
      "SELECT 1\nSELECT 2".toList := by
  constructor <;> decide

/-- **C4.** `INSERT OVERWRITE TABLE db.tbl SELECT * FROM src` chunks into an
`insert_header` fragment and a `select` fragment; for *every* translate
function `f` the driver invokes `f` exactly once, on the `select` content
only (the header is rewritten locally), and reassembly yields
`` CREATE OR REPLACE TABLE `db.tbl` AS `` followed by the translated body —
with the identity translate function, `SELECT * FROM src`. -/
theorem insert_header_rewrite (f : PyStr → PyStr) :
    analyze_and_chunk "INSERT OVERWRITE TABLE db.tbl SELECT * FROM src".toList =
      [⟨"insert_header", "INSERT OVERWRITE TABLE db.tbl".toList, none, 0⟩,
       ⟨"select", "SELECT * FROM src".toList, none, 1⟩] ∧
    translateCalls f
        (analyze_and_chunk "INSERT OVERWRITE TABLE db.tbl SELECT * FROM src".toList) =
      ["SELECT * FROM src".toList] ∧
    convert_chunks f
        (analyze_and_chunk "INSERT OVERWRITE TABLE db.tbl SELECT * FROM src".toList) =
      "CREATE OR REPLACE TABLE `db.tbl` AS\n".toList ++
        pyStrip (f "SELECT * FROM src".toList) := by
  refine ⟨by decide, rfl, rfl⟩

/-- **C5.** `SELECT 1 UNION ALL SELECT 2 UNION SELECT 3` chunks into exactly
3 fragments, the first tagged `union_first` and the others `union_part`, and
reassembly (identity translate function) joins the branches with
`UNION ALL` even though the second original separator was plain `UNION`. -/
theorem union_split_merge :
    analyze_and_chunk "SELECT 1 UNION ALL SELECT 2 UNION SELECT 3".toList =
      [⟨"union_first", "SELECT 1".toList, none, 0⟩,
       ⟨"union_part", "SELECT 2".toList, none, 1⟩,
       ⟨"union_part", "SELECT 3".toList, none, 2⟩] ∧
    convert_chunks id
        (analyze_and_chunk "SELECT 1 UNION ALL SELECT 2 UNION SELECT 3".toList) =
      "SELECT 1\nUNION ALL\nSELECT 2\nUNION ALL\nSELECT 3".toList := by
  constructor <;> decide

/-- **C7.** `find_matching_paren` on `(a ')' b)` (and on its double-quote
variant `(a ")" b)`) started at the opening parenthesis returns index 8 —
the final character of the 9-character string, i.e. the real closing
parenthesis, not the quoted one at index 4. -/
theorem paren_scan_string_immunity :
    find_matching_paren "(a ')' b)".toList 0 = some 8 ∧
    "(a ')' b)".toList.get? 4 = some ')' ∧
    "(a ')' b)".toList.length = 9 ∧
    find_matching_paren "(a \")\" b)".toList 0 = some 8 := by
  refine ⟨by decide, by decide, by decide, by decide⟩

/-- **C6 counterexample.** The claim's strict-threshold reading fails on the
raw input string: `should_chunk` measures the *stripped* SQL, so the
4-character input `"aaa "` with character threshold 3 (one character beyond
the threshold, no newlines) does not trigger chunking. -/
theorem should_chunk_strict_cex :
    "aaa ".toList.length = 3 + 1 ∧ "aaa ".toList.count '\n' = 0 ∧
    should_chunk 3 200 "aaa ".toList = false := by
  refine ⟨by decide, by decide, by decide⟩

/-- **C6 (amended).** `should_chunk` compares the length and newline count
of the *whitespace-stripped* SQL (`__init__` stores `sql.strip()`) with
strict greater-than semantics: a stripped length equal to the character
threshold does not trigger chunking while threshold + 1 does, and likewise
for the newline-count threshold; either threshold alone exceeding triggers
chunking. -/
theorem should_chunk_strict (input : PyStr) (maxLen maxLines : Nat) :
    ((pyStrip input).length = maxLen ∧ (pyStrip input).count '\n' ≤ maxLines →
      should_chunk maxLen maxLines input = false) ∧
    ((pyStrip input).length = maxLen + 1 → should_chunk maxLen maxLines input = true) ∧
    ((pyStrip input).count '\n' = maxLines ∧ (pyStrip input).length ≤ maxLen →
      should_chunk maxLen maxLines input = false) ∧
    ((pyStrip input).count '\n' = maxLines + 1 →
      should_chunk maxLen maxLines input = true) := by
  refine ⟨fun h => ?_, fun h => ?_, fun h => ?_, fun h => ?_⟩ <;>
    simp only [should_chunk, Bool.or_eq_true, decide_eq_true_eq, Bool.or_eq_false_iff,
      decide_eq_false_iff_not] <;> omega

/-- Witness for `should_chunk_strict`: with thresholds (3, 200) the stripped
3-character string `aaa` does not chunk; with thresholds (2, 200) it does. -/
theorem should_chunk_strict_witness :
    should_chunk 3 200 "aaa".toList = false ∧ should_chunk 2 200 "aaa".toList = true :=
  ⟨(should_chunk_strict "aaa".toList 3 200).1 ⟨by decide, by decide⟩,
   (should_chunk_strict "aaa".toList 2 200).2.1 (by decide)⟩

/-- **C10.** `chunk_and_convert` applies `f` once to the whole raw input and
reports `was_chunked = false` whenever `should_chunk` is false or
`analyze_and_chunk` produces at most one chunk; it reports `true` exactly
when the multi-chunk convert-and-merge path ran, in which case the result
is the merged conversion. -/
theorem chunk_and_convert_single (maxLen maxLines : Nat) (sql : PyStr)
    (f : PyStr → PyStr) :
    (should_chunk maxLen maxLines sql = false ∨ (analyze_and_chunk sql).length ≤ 1 →
      chunk_and_convert maxLen maxLines sql f = (f sql, false)) ∧
    ((chunk_and_convert maxLen maxLines sql f).2 = true ↔
      should_chunk maxLen maxLines sql = true ∧ 1 < (analyze_and_chunk sql).length) ∧
    (should_chunk maxLen maxLines sql = true → 1 < (analyze_and_chunk sql).length →
      chunk_and_convert maxLen maxLines sql f =
        (convert_chunks f (analyze_and_chunk sql), true)) := by
  by_cases h1 : should_chunk maxLen maxLines sql = true
  · by_cases h2 : 1 < (analyze_and_chunk sql).length
    · have e : chunk_and_convert maxLen maxLines sql f =
          (convert_chunks f (analyze_and_chunk sql), true) := by
        unfold chunk_and_convert
        rw [if_pos h1, if_pos h2]
      refine ⟨fun h => ?_, ?_, fun _ _ => e⟩
      · rcases h with h | h
        · rw [h1] at h; cases h
        · omega
      · rw [e]
        simp [h1, h2]
    · have e : chunk_and_convert maxLen maxLines sql f = (f sql, false) := by
        unfold chunk_and_convert
        rw [if_pos h1, if_neg h2]
      refine ⟨fun _ => e, ?_, fun _ h => absurd h h2⟩
      rw [e]
      simp [h2]
  · have e : chunk_and_convert maxLen maxLines sql f = (f sql, false) := by
      unfold chunk_and_convert
      rw [if_neg h1]
    refine ⟨fun _ => e, ?_, fun hs _ => absurd hs h1⟩
    rw [e]
    simp
    intro h
    exact absurd h h1

/-- Witness for `chunk_and_convert_single`: `SELECT 1` is below the default
thresholds, so it is converted unchunked. -/
theorem chunk_and_convert_single_witness :
    chunk_and_convert 8000 200 "SELECT 1".toList id = ("SELECT 1".toList, false) :=
  (chunk_and_convert_single 8000 200 "SELECT 1".toList id).1 (Or.inl (by decide))

/-- **C8.** For every input and translate function `f`: the fragments
returned by `analyze_and_chunk` carry strictly increasing `index` values in
list order, and after conversion and reassembly the emitted fragment
contents (headers locally rewritten, `use` fragments dropped, others
translated) appear in the merged output as disjoint substrings in that same
relative order — header first, then the CTE block, then the body fragments. -/
theorem order_preservation (input : PyStr) (f : PyStr → PyStr) :
    List.Pairwise (fun a b : Nat => a < b)
      ((analyze_and_chunk input).map (fun c => c.index)) ∧
    appearsInOrder (emittedContents f (analyze_and_chunk input))
      (convert_chunks f (analyze_and_chunk input)) := by
  have hwf : chunksWellFormed (analyze_and_chunk input) := by
    unfold analyze_and_chunk
    split_ifs with h1 h2 h3 h4 h5
    · exact chunk_by_statements_wellFormed _
    · exact chunk_insert_select_wellFormed _
    · exact chunk_alter_view_wellFormed _
    · exact chunk_by_cte_wellFormed _
    · exact chunk_by_union_wellFormed _
    · exact main_singleton_wellFormed _
  exact ⟨(List.pairwise_map).mpr hwf.1, wellFormed_appears hwf⟩

/-- **C9.** For every fragment list and translate function `f`, the driver
loop of `convert_chunks` produces exactly the parts described by `partOf`:
`use` fragments are dropped entirely (they contribute no part and no
translate call), `insert_header` / `alter_view_header` fragments are
rewritten locally without invoking `f`, and `f` is invoked exactly once, on
the verbatim content, for every other fragment, in list order. -/
theorem driver_routing (f : PyStr → PyStr) (chunks : List SQLChunk) :
    (convertChunksAux f chunks).1 = chunks.filterMap (partOf f) ∧
    translateCalls f chunks =
      (chunks.filter (fun c => !(decide (c.chunk_type = "use")
          || decide (c.chunk_type = "insert_header")
          || decide (c.chunk_type = "alter_view_header")))).map
        (fun c => c.content) := by
  rw [show translateCalls f chunks = (convertChunksAux f chunks).2 from rfl,
    convertChunksAux_eq]
  exact ⟨rfl, rfl⟩

end SQLChunkerModel
